import Mathlib

/-!
# Verification of the justvm11 class-file core

Shallow embedding of the constant-pool decoding engine, the modified-UTF-8
codec, the IEEE-754 bit-reinterpretation rules, the access-flags validator
and the top-level class-file structural parser of the `class_commons` crate
(`src/class_commons/src/class_file/mod.rs` and `cp_info.rs`), together with
theorems settling the frozen claims about them.

The crate under `src/` ships the data declarations (`ConstantInfo`,
`MethodHandleReferenceKind`, `ClassAccessFlags`, `ClassFile`) and an extensive
doc-comment specification, but no executable decoder/validator/parser bodies;
where a claim concerns behaviour whose code is missing from `src/`, the
corresponding definition below is modelled from the specification text and is
marked `Modelled from the spec:` in its doc comment.
-/

namespace JustVM

/-! ## Access flags (`ClassAccessFlags`, mod.rs lines 16–28) -/

/-- Bit constant `ACC_PUBLIC = 0x0001` of `ClassAccessFlags`. -/
def ACC_PUBLIC : Nat := 0x0001

/-- Bit constant `ACC_FINAL = 0x0010` of `ClassAccessFlags`. -/
def ACC_FINAL : Nat := 0x0010

/-- Bit constant `ACC_SUPER = 0x0020` of `ClassAccessFlags`. -/
def ACC_SUPER : Nat := 0x0020

/-- Bit constant `ACC_INTERFACE = 0x0200` of `ClassAccessFlags`. -/
def ACC_INTERFACE : Nat := 0x0200

/-- Bit constant `ACC_ABSTRACT = 0x4000` of `ClassAccessFlags` (as written in
the source; the JVM specification's own table has `0x0400` for this flag). -/
def ACC_ABSTRACT : Nat := 0x4000

/-- Bit constant `ACC_SYNTHETIC = 0x1000` of `ClassAccessFlags`. -/
def ACC_SYNTHETIC : Nat := 0x1000

/-- Bit constant `ACC_ANNOTATION = 0x2000` of `ClassAccessFlags`. -/
def ACC_ANNOTATION : Nat := 0x2000

/-- Bit constant `ACC_ENUM = 0x4000` of `ClassAccessFlags`. -/
def ACC_ENUM : Nat := 0x4000

/-- Bit constant `ACC_MODULE = 0x8000` of `ClassAccessFlags`. -/
def ACC_MODULE : Nat := 0x8000

/-- `bitflags` membership test: `v.contains(f)` holds when every bit of `f`
is set in `v`. -/
def containsFlag (v f : Nat) : Bool := v &&& f = f

/-- Modelled from the spec: the Access Flags Validator (spec §4.3) has no body
under `src/` — only the `ClassAccessFlags` bit constants exist there.  The
rules, applied over the source's bit constants: if `interface` is set then
`abstract` must be set and `final`, `super`, `enum` must be clear; otherwise
any combination is permitted except `final` and `abstract` both set, and
`annotation` must be clear when `interface` is clear.  Unassigned bits are
ignored. -/
def validateClassAccessFlags (v : Nat) : Bool :=
  if containsFlag v ACC_INTERFACE then
    containsFlag v ACC_ABSTRACT && !containsFlag v ACC_FINAL &&
      !containsFlag v ACC_SUPER && !containsFlag v ACC_ENUM
  else
    !(containsFlag v ACC_FINAL && containsFlag v ACC_ABSTRACT) &&
      !containsFlag v ACC_ANNOTATION

/-- C1: the claim expects `{interface, abstract}` (bitmask `0x4200` with the
source's constants) to pass validation while also requiring, whenever
`interface` is set, that `abstract` is set and `enum` is clear.  Because the
source defines `ACC_ABSTRACT` and `ACC_ENUM` as the same bit `0x4000`
(the JVM specification's value for `ACC_ABSTRACT` is `0x0400`), the two
requirements conflict: `{interface, abstract}` is rejected, and indeed no
bitmask with `interface` set can validate.  The three other test vectors of
the claim behave as stated.  This theorem evaluates the spec-modelled
validator over the source's constants at the failing input. -/
theorem accessFlags_interface_unsatisfiable :
    validateClassAccessFlags (ACC_INTERFACE ||| ACC_ABSTRACT) = false ∧
    validateClassAccessFlags ACC_INTERFACE = false ∧
    validateClassAccessFlags (ACC_FINAL ||| ACC_ABSTRACT) = false ∧
    validateClassAccessFlags (ACC_PUBLIC ||| ACC_FINAL) = true ∧
    ∀ v : Nat, (containsFlag v ACC_INTERFACE && validateClassAccessFlags v) = false := by
  refine ⟨by decide, by decide, by decide, by decide, ?_⟩
  intro v
  cases hi : containsFlag v ACC_INTERFACE with
  | false => simp
  | true =>
    simp only [Bool.true_and]
    unfold validateClassAccessFlags
    rw [hi]
    simp only [if_true]
    cases ha : containsFlag v ACC_ABSTRACT with
    | false => simp [ha]
    | true =>
      have he : containsFlag v ACC_ENUM = true := ha
      simp [ha, he]

/-- C2: `ACC_ABSTRACT` and `ACC_ENUM` both name the numeric bit `0x4000`, so
for every 16-bit (indeed every) access-flags value the abstract flag is set
iff the enum flag is set, and no bitmask has abstract set with enum clear. -/
theorem abstract_enum_same_bit :
    ACC_ABSTRACT = 0x4000 ∧ ACC_ENUM = 0x4000 ∧
    (∀ v : Nat, containsFlag v ACC_ABSTRACT = containsFlag v ACC_ENUM) ∧
    (∀ v : Nat, (containsFlag v ACC_ABSTRACT && !containsFlag v ACC_ENUM) = false) := by
  refine ⟨rfl, rfl, fun v => rfl, fun v => ?_⟩
  cases h : containsFlag v ACC_ABSTRACT with
  | false => simp
  | true =>
    have he : containsFlag v ACC_ENUM = true := h
    simp [he]

/-! ## Constant-pool data model (`cp_info.rs`) -/

/-- The `MethodHandleReferenceKind` enum of `cp_info.rs` (discriminants 1–9). -/
inductive MethodHandleReferenceKind
  | refGetField
  | refGetStatic
  | refPutField
  | refPutStatic
  | refInvokeVirtual
  | refInvokeStatic
  | refInvokeSpecial
  | refNewInvokeSpecial
  | refInvokeInterface
  deriving DecidableEq

/-- The `ConstantInfo` enum of `cp_info.rs`.  Rust `u16` index fields become
`Nat`; `i32`/`i64` values become `Int`; the `f32`/`f64` payloads of
`FloatInfo`/`DoubleInfo` are carried as their IEEE-754 bit patterns (the Rust
values are exactly `f32::from_bits`/`f64::from_bits` of the stream bytes);
the `String` payload of `Utf8Info` is its sequence of Unicode code points. -/
inductive ConstantInfo
  | classInfo (name_index : Nat)
  | fieldRefInfo (class_index name_and_type_index : Nat)
  | methodRefInfo (class_index name_and_type_index : Nat)
  | interfaceMethodRefInfo (class_index name_and_type_index : Nat)
  | stringInfo (string_index : Nat)
  | integerInfo (bytes : Int)
  | floatInfo (bits : Nat)
  | longInfo (bytes : Int)
  | doubleInfo (bits : Nat)
  | nameAndTypeInfo (name_index descriptor_index : Nat)
  | utf8Info (data : List Nat)
  | methodHandleInfo (reference_kind : MethodHandleReferenceKind) (reference_index : Nat)
  | methodTypeInfo (descriptor_index : Nat)
  | invokeDynamicInfo (bootstrap_method_attr_index name_and_type_index : Nat)
  | moduleInfo (name_index : Nat)
  | packageInfo (name_index : Nat)
  deriving DecidableEq

/-- The error taxonomy of spec §7. -/
inductive ClassFileErr
  | unexpectedEndOfData
  | badMagic
  | unknownTag
  | invalidModifiedUtf8
  | invalidMethodHandleKind
  | invalidConstantPoolIndex
  | wrongConstantKind
  | invalidAccessFlags
  deriving DecidableEq

/-- Does this constant occupy two table slots?  Per the doc comments on
`LongInfo`/`DoubleInfo` (cp_info.rs lines 194–198, 212–216), exactly the
8-byte constants do. -/
def ConstantInfo.isWide : ConstantInfo → Bool
  | .longInfo _ => true
  | .doubleInfo _ => true
  | _ => false

/-- One slot of the assembled constant-pool table: either a stored entry or
the deliberate unusable sentinel filling the second slot of an 8-byte
constant (spec §9, "Unusable double-slot"). -/
inductive PoolSlot
  | entry (c : ConstantInfo)
  | unusable
  deriving DecidableEq

/-- Modelled from the spec: the pool-assembly loop (spec §4.1) has no body
under `src/`.  Each decoded entry is stored in the next slot; after an 8-byte
constant the following slot is marked unusable, so the next usable entry
lands two indices later.  Slot `i` (0-based) of the returned list is pool
index `i + 1` (the table is 1-indexed, index 0 never valid). -/
def buildPool : List ConstantInfo → List PoolSlot
  | [] => []
  | c :: rest =>
    if c.isWide then .entry c :: .unusable :: buildPool rest
    else .entry c :: buildPool rest

/-- Modelled from the spec: the bounds- and usability-checked lookup
`resolve(index)` (spec §6) has no body under `src/`.  An index is valid only
in `[1, pool_size]`; a lookup at the unusable second slot of an 8-byte
constant fails with `InvalidConstantPoolIndex`. -/
def resolve (pool : List PoolSlot) (i : Nat) : Except ClassFileErr ConstantInfo :=
  if h : 1 ≤ i ∧ i ≤ pool.length then
    match pool.get ⟨i - 1, by omega⟩ with
    | .entry c => .ok c
    | .unusable => .error .invalidConstantPoolIndex
  else .error .invalidConstantPoolIndex

/-- Resolving index `i + 1` in a pool with one slot prepended is resolving
index `i` in the original pool, for `i ≥ 1`. -/
theorem resolve_cons (s : PoolSlot) (pool : List PoolSlot) (i : Nat) (h : 1 ≤ i) :
    resolve (s :: pool) (i + 1) = resolve pool i := by
  obtain ⟨j, rfl⟩ : ∃ j, i = j + 1 := ⟨i - 1, by omega⟩
  unfold resolve
  by_cases hj : j + 1 ≤ pool.length
  · rw [dif_pos (by simp; omega), dif_pos (by omega)]; rfl
  · rw [dif_neg (by simp; omega), dif_neg (by omega)]

/-- C3: in every constant pool, a Long or Double entry stored at index `n`
makes index `n + 1` resolve to `InvalidConstantPoolIndex`, and the entry
decoded next is stored at index `n + 2`.  Here `n` is the pool index at which
`c` is stored, namely one past the slots contributed by the entries before
it. -/
theorem widePool_slots (pre : List ConstantInfo) (c : ConstantInfo)
    (post : List ConstantInfo) (hw : c.isWide = true) :
    resolve (buildPool (pre ++ c :: post)) ((buildPool pre).length + 1) = .ok c ∧
    resolve (buildPool (pre ++ c :: post)) ((buildPool pre).length + 2) =
      .error .invalidConstantPoolIndex ∧
    ∀ c₂ post', post = c₂ :: post' →
      resolve (buildPool (pre ++ c :: post)) ((buildPool pre).length + 3) = .ok c₂ := by
  induction pre with
  | nil =>
    refine ⟨?_, ?_, ?_⟩
    · simp [buildPool, hw, resolve]
    · simp [buildPool, hw, resolve]
    · rintro c₂ post' rfl
      cases hw₂ : c₂.isWide <;> simp [buildPool, hw, hw₂, resolve]
  | cons p pre' ih =>
    have hlen : ∀ i : Nat, 1 ≤ i →
        resolve (buildPool ((p :: pre') ++ c :: post)) ((buildPool (p :: pre')).length + i) =
          resolve (buildPool (pre' ++ c :: post)) ((buildPool pre').length + i) := by
      intro i hi
      cases hp : p.isWide <;>
        simp only [List.cons_append, buildPool, hp, if_true, if_false,
          Bool.false_eq_true, List.length_cons]
      · rw [show (buildPool pre').length + 1 + i = ((buildPool pre').length + i) + 1 by omega,
          resolve_cons _ _ _ (by omega)]
        rfl
      · rw [show (buildPool pre').length + 1 + 1 + i = (((buildPool pre').length + i) + 1) + 1
            by omega,
          resolve_cons _ _ _ (by omega), resolve_cons _ _ _ (by omega)]
        rfl
    refine ⟨?_, ?_, ?_⟩
    · rw [hlen 1 (by omega)]; exact ih.1
    · rw [hlen 2 (by omega)]; exact ih.2.1
    · rintro c₂ post' rfl
      rw [hlen 3 (by omega)]
      exact ih.2.2 c₂ post' rfl

/-- Witness for `widePool_slots` at a concrete pool: entries
`[Integer 1, Long 7, Class 9]` put the Long at pool index 2, make index 3
unusable and store the Class entry at index 4. -/
theorem widePool_slots_witness :
    resolve (buildPool [.integerInfo 1, .longInfo 7, .classInfo 9]) 3 =
        .error .invalidConstantPoolIndex ∧
    resolve (buildPool [.integerInfo 1, .longInfo 7, .classInfo 9]) 2 = .ok (.longInfo 7) ∧
    resolve (buildPool [.integerInfo 1, .longInfo 7, .classInfo 9]) 4 = .ok (.classInfo 9) := by
  have h := widePool_slots [.integerInfo 1] (.longInfo 7) [.classInfo 9] (by decide)
  exact ⟨h.2.1, h.1, h.2.2 (.classInfo 9) [] rfl⟩

/-! ## Modified UTF-8 codec (`Utf8Info`, cp_info.rs lines 277–419)

The codec itself has no body under `src/`; the definitions below are modelled
from the encoding specification in the `Utf8Info` doc comment and spec §4.1:
1-byte form for U+0001–U+007F, 2-byte form `110xxxxx 10yyyyyy` for U+0000 and
U+0080–U+07FF, 3-byte form `1110wwww 10xxxxxx 10yyyyyy` for U+0800–U+FFFF,
and two chained surrogate 3-byte forms for code points above U+FFFF.  No byte
may be 0 and no byte may lie in 0xF0–0xFF. -/

/-- A byte vaue the modified-UTF-8 codec may legally consume: non-zero and
below 0xF0 (cp_info.rs lines 303–305). -/
def GoodByte (b : Nat) : Prop := b ≠ 0 ∧ b ≤ 0xEF

instance (b : Nat) : Decidable (GoodByte b) := by unfold GoodByte; infer_instance

/-- Is `c` a UTF-16 surrogate code point? -/
def isSurrogate (c : Nat) : Bool := decide (0xD800 ≤ c ∧ c ≤ 0xDFFF)

/-- A code point in the range the round-trip property quantifies over:
U+0001 through U+10FFFF, not a surrogate. -/
def validCp (c : Nat) : Bool := decide (1 ≤ c ∧ c ≤ 0x10FFFF) && !isSurrogate c

/-- Modelled from the spec: the 3-byte form `1110wwww 10xxxxxx 10yyyyyy` of a
16-bit value (used directly for U+0800–U+FFFF and once per surrogate half of
a supplementary code point). -/
def enc3 (v : Nat) : List Nat :=
  [0xE0 + v / 4096, 0x80 + v / 64 % 64, 0x80 + v % 64]

/-- Modelled from the spec: the modified-UTF-8 encoding of one code point. -/
def encodeCp (c : Nat) : List Nat :=
  if 1 ≤ c ∧ c ≤ 0x7F then [c]
  else if c ≤ 0x7FF then [0xC0 + c / 64, 0x80 + c % 64]
  else if c ≤ 0xFFFF then enc3 c
  else enc3 (0xD800 + (c - 0x10000) / 1024) ++ enc3 (0xDC00 + (c - 0x10000) % 1024)

/-- Modelled from the spec: the modified-UTF-8 encoding of a code-point
sequence. -/
def encode : List Nat → List Nat
  | [] => []
  | c :: rest => encodeCp c ++ encode rest

/-- Modelled from the spec: read one byte, rejecting the byte values the
format forbids outright (0 and 0xF0–0xFF) with `InvalidModifiedUtf8`, and an
exhausted buffer with `UnexpectedEndOfData`. -/
def readByte : List Nat → Except ClassFileErr (Nat × List Nat)
  | [] => .error .unexpectedEndOfData
  | b :: tl =>
    if b = 0 ∨ 0xF0 ≤ b then .error .invalidModifiedUtf8 else .ok (b, tl)

/-- Modelled from the spec: read one continuation byte `10xxxxxx`. -/
def readCont (bs : List Nat) : Except ClassFileErr (Nat × List Nat) :=
  match readByte bs with
  | .error e => .error e
  | .ok (y, tl) =>
    if 0x80 ≤ y ∧ y ≤ 0xBF then .ok (y, tl) else .error .invalidModifiedUtf8

/-- Modelled from the spec: given the lead byte `b` of a 3-byte form, read
the two continuation bytes and combine
`((b & 0xf) << 12) + ((y & 0x3f) << 6) + (z & 0x3f)`. -/
def read3 (b : Nat) (tl : List Nat) : Except ClassFileErr (Nat × List Nat) :=
  match readCont tl with
  | .error e => .error e
  | .ok (y, tl₁) =>
    match readCont tl₁ with
    | .error e => .error e
    | .ok (z, tl₂) => .ok ((b % 16) * 4096 + (y % 64) * 64 + z % 64, tl₂)

/-- Modelled from the spec: decode one code point from the front of the
buffer.  Dispatches on the lead byte: 1-byte form below 0x80; stray
continuation bytes rejected; 2-byte form `110xxxxx` (whose value must be 0 or
lie in U+0080–U+07FF — a literal zero byte never yields the null code
point); 3-byte form `1110wwww` (whose value must lie in U+0800–U+FFFF); a
high-surrogate 3-byte value chains into the second surrogate triple of the
6-byte form, combining as
`0x10000 + ((v&0xF)<<16) + ((w&0x3F)<<10) + ((y&0xF)<<6) + (z&0x3F)`;
an unchained low-surrogate value is rejected. -/
def decode1 (bs : List Nat) : Except ClassFileErr (Nat × List Nat) :=
  match readByte bs with
  | .error e => .error e
  | .ok (b, tl) =>
    if b ≤ 0x7F then .ok (b, tl)
    else if b ≤ 0xBF then .error .invalidModifiedUtf8
    else if b ≤ 0xDF then
      match readCont tl with
      | .error e => .error e
      | .ok (y, tl₁) =>
        if (b % 32) * 64 + y % 64 = 0 ∨ 0x80 ≤ (b % 32) * 64 + y % 64 then
          .ok ((b % 32) * 64 + y % 64, tl₁)
        else .error .invalidModifiedUtf8
    else
      match read3 b tl with
      | .error e => .error e
      | .ok (v, tl₂) =>
        if v < 0x800 then .error .invalidModifiedUtf8
        else if 0xD800 ≤ v ∧ v ≤ 0xDBFF then
          match readByte tl₂ with
          | .error e => .error e
          | .ok (b₂, tl₃) =>
            if 0xE0 ≤ b₂ then
              match read3 b₂ tl₃ with
              | .error e => .error e
              | .ok (w, tl₅) =>
                if 0xDC00 ≤ w ∧ w ≤ 0xDFFF then
                  .ok (0x10000 + (v - 0xD800) * 1024 + (w - 0xDC00), tl₅)
                else .error .invalidModifiedUtf8
            else .error .invalidModifiedUtf8
        else if 0xDC00 ≤ v ∧ v ≤ 0xDFFF then .error .invalidModifiedUtf8
        else .ok (v, tl₂)

/-- Modelled from the spec: the decoding loop, running `decode1` until the
buffer is empty.  The fuel argument only serves termination; `decode` below
instantiates it with the buffer length, which always suffices. -/
def decodeFuel : Nat → List Nat → Except ClassFileErr (List Nat)
  | _, [] => .ok []
  | 0, _ :: _ => .error .unexpectedEndOfData
  | fuel + 1, b :: tl =>
    match decode1 (b :: tl) with
    | .error e => .error e
    | .ok (c, rest) =>
      match decodeFuel fuel rest with
      | .error e => .error e
      | .ok l => .ok (c :: l)

/-- Modelled from the spec: decode a whole modified-UTF-8 byte run into its
code-point sequence. -/
def decode (bs : List Nat) : Except ClassFileErr (List Nat) :=
  decodeFuel bs.length bs

/-! ### Reduction and inversion lemmas for the codec readers -/

/-- Bind of a success reduces to the continuation. -/
theorem ok_bind {ε α β : Type} (a : α) (f : α → Except ε β) :
    (Except.ok a : Except ε α) >>= f = f a := rfl

/-- Bind of an error propagates the error. -/
theorem error_bind {ε α β : Type} (e : ε) (f : α → Except ε β) :
    (Except.error e : Except ε α) >>= f = Except.error e := rfl

/-- A continuation byte `10xxxxxx`. -/
def ContByte (y : Nat) : Prop := 0x80 ≤ y ∧ y ≤ 0xBF

theorem ContByte.good {y : Nat} (h : ContByte y) : GoodByte y := by
  obtain ⟨h1, h2⟩ := h
  exact ⟨by omega, by omega⟩

theorem readByte_ok {bs : List Nat} {b : Nat} {tl : List Nat}
    (h : readByte bs = .ok (b, tl)) : bs = b :: tl ∧ GoodByte b := by
  match bs with
  | [] => simp [readByte] at h
  | x :: xs =>
    simp only [readByte] at h
    split at h
    · simp at h
    · rename_i hc
      simp only [Except.ok.injEq, Prod.mk.injEq] at h
      obtain ⟨rfl, rfl⟩ := h
      exact ⟨rfl, ⟨by omega, by omega⟩⟩

theorem readByte_cons {b : Nat} (tl : List Nat) (hb : GoodByte b) :
    readByte (b :: tl) = .ok (b, tl) := by
  obtain ⟨h1, h2⟩ := hb
  simp only [readByte]
  rw [if_neg (by omega)]

theorem readByte_eod {bs : List Nat} (h : readByte bs = .error .unexpectedEndOfData) :
    bs = [] := by
  match bs with
  | [] => rfl
  | x :: xs => simp only [readByte] at h; split at h <;> simp at h

theorem readByte_kinds {bs : List Nat} {e : ClassFileErr} (h : readByte bs = .error e) :
    e = .unexpectedEndOfData ∨ e = .invalidModifiedUtf8 := by
  match bs with
  | [] =>
    simp only [readByte, Except.error.injEq] at h
    exact .inl h.symm
  | x :: xs =>
    simp only [readByte] at h
    split at h
    · simp only [Except.error.injEq] at h
      exact .inr h.symm
    · simp at h

theorem readCont_ok {bs : List Nat} {y : Nat} {tl : List Nat}
    (h : readCont bs = .ok (y, tl)) : bs = y :: tl ∧ ContByte y := by
  simp only [readCont] at h
  split at h
  · simp at h
  · rename_i y' tl' heq
    split at h
    · rename_i hcont
      simp only [Except.ok.injEq, Prod.mk.injEq] at h
      obtain ⟨rfl, rfl⟩ := h
      exact ⟨(readByte_ok heq).1, hcont⟩
    · simp at h

theorem readCont_cons {y : Nat} (tl : List Nat) (hy : ContByte y) :
    readCont (y :: tl) = .ok (y, tl) := by
  obtain ⟨h1, h2⟩ := hy
  simp only [readCont, readByte_cons tl (ContByte.good ⟨h1, h2⟩)]
  rw [if_pos ⟨h1, h2⟩]

theorem readCont_eod {bs : List Nat} (h : readCont bs = .error .unexpectedEndOfData) :
    bs = [] := by
  simp only [readCont] at h
  split at h
  · rename_i e heq
    cases h
    exact readByte_eod heq
  · split at h <;> simp at h

theorem readCont_kinds {bs : List Nat} {e : ClassFileErr} (h : readCont bs = .error e) :
    e = .unexpectedEndOfData ∨ e = .invalidModifiedUtf8 := by
  simp only [readCont] at h
  split at h
  · rename_i e' heq
    cases h
    exact readByte_kinds heq
  · split at h
    · simp at h
    · simp only [Except.error.injEq] at h
      exact .inr h.symm

theorem read3_ok {b : Nat} {tl : List Nat} {v : Nat} {tl₂ : List Nat}
    (h : read3 b tl = .ok (v, tl₂)) :
    ∃ y z, tl = y :: z :: tl₂ ∧ ContByte y ∧ ContByte z ∧
      v = (b % 16) * 4096 + (y % 64) * 64 + z % 64 := by
  simp only [read3] at h
  split at h
  · simp at h
  · rename_i y tl₁ hc1
    split at h
    · simp at h
    · rename_i z tl₂' hc2
      simp only [Except.ok.injEq, Prod.mk.injEq] at h
      obtain ⟨rfl, rfl⟩ := h
      obtain ⟨h1, hy⟩ := readCont_ok hc1
      obtain ⟨h2, hz⟩ := readCont_ok hc2
      exact ⟨y, z, by rw [h1, h2], hy, hz, rfl⟩

theorem contByte_enc (k : Nat) : ContByte (0x80 + k % 64) := ⟨by omega, by omega⟩

theorem read3_cons (b v : Nat) (rest : List Nat) :
    read3 b ((0x80 + v / 64 % 64) :: (0x80 + v % 64) :: rest) =
      .ok ((b % 16) * 4096 + (v / 64 % 64) * 64 + v % 64, rest) := by
  simp only [read3, readCont_cons _ (contByte_enc (v / 64)), readCont_cons _ (contByte_enc v)]
  have h1 : (0x80 + v / 64 % 64) % 64 = v / 64 % 64 := by omega
  have h2 : (0x80 + v % 64) % 64 = v % 64 := by omega
  rw [h1, h2]

theorem read3_eod {b : Nat} {tl : List Nat}
    (h : read3 b tl = .error .unexpectedEndOfData) : ∀ x ∈ tl, GoodByte x := by
  simp only [read3] at h
  split at h
  · rename_i e heq
    cases h
    rw [readCont_eod heq]
    intro x hx
    cases hx
  · rename_i y tl₁ hc1
    split at h
    · rename_i e heq
      cases h
      obtain ⟨rfl, hy⟩ := readCont_ok hc1
      rw [readCont_eod heq]
      intro x hx
      rcases List.mem_singleton.mp hx with rfl
      exact hy.good
    · simp at h

theorem read3_kinds {b : Nat} {tl : List Nat} {e : ClassFileErr}
    (h : read3 b tl = .error e) :
    e = .unexpectedEndOfData ∨ e = .invalidModifiedUtf8 := by
  simp only [read3] at h
  split at h
  · rename_i e' heq
    cases h
    exact readCont_kinds heq
  · split at h
    · rename_i e' heq
      cases h
      exact readCont_kinds heq
    · simp at h

/-! ### Inversion lemmas for `decode1` -/

theorem decode1_ok_shape {bs : List Nat} {c : Nat} {rest : List Nat}
    (h : decode1 bs = .ok (c, rest)) :
    ∃ pre, bs = pre ++ rest ∧ pre ≠ [] ∧ ∀ x ∈ pre, GoodByte x := by
  simp only [decode1] at h
  split at h
  · simp at h
  · rename_i b tl hrb
    obtain ⟨rfl, hb⟩ := readByte_ok hrb
    split at h
    · simp only [Except.ok.injEq, Prod.mk.injEq] at h
      obtain ⟨rfl, rfl⟩ := h
      refine ⟨[b], rfl, by simp, fun x hx => ?_⟩
      rcases List.mem_singleton.mp hx with rfl
      exact hb
    · split at h
      · simp at h
      · split at h
        · split at h
          · simp at h
          · rename_i y tl₁ hrc
            obtain ⟨rfl, hy⟩ := readCont_ok hrc
            split at h
            · simp only [Except.ok.injEq, Prod.mk.injEq] at h
              obtain ⟨rfl, rfl⟩ := h
              refine ⟨[b, y], rfl, by simp, fun x hx => ?_⟩
              simp only [List.mem_cons, List.not_mem_nil, or_false] at hx
              rcases hx with rfl | rfl
              · exact hb
              · exact hy.good
            · simp at h
        · split at h
          · simp at h
          · rename_i v tl₂ hr3
            obtain ⟨y, z, rfl, hy, hz, rfl⟩ := read3_ok hr3
            split at h
            · simp at h
            · split at h
              · split at h
                · simp at h
                · rename_i b₂ tl₃ hrb₂
                  obtain ⟨rfl, hb₂⟩ := readByte_ok hrb₂
                  split at h
                  · split at h
                    · simp at h
                    · rename_i w tl₅ hr3₂
                      obtain ⟨y₂, z₂, rfl, hy₂, hz₂, rfl⟩ := read3_ok hr3₂
                      split at h
                      · simp only [Except.ok.injEq, Prod.mk.injEq] at h
                        obtain ⟨rfl, rfl⟩ := h
                        refine ⟨[b, y, z, b₂, y₂, z₂], rfl, by simp, fun x hx => ?_⟩
                        simp only [List.mem_cons, List.not_mem_nil, or_false] at hx
                        rcases hx with rfl | rfl | rfl | rfl | rfl | rfl
                        · exact hb
                        · exact hy.good
                        · exact hz.good
                        · exact hb₂
                        · exact hy₂.good
                        · exact hz₂.good
                      · simp at h
                  · simp at h
              · split at h
                · simp at h
                · simp only [Except.ok.injEq, Prod.mk.injEq] at h
                  obtain ⟨rfl, rfl⟩ := h
                  refine ⟨[b, y, z], rfl, by simp, fun x hx => ?_⟩
                  simp only [List.mem_cons, List.not_mem_nil, or_false] at hx
                  rcases hx with rfl | rfl | rfl
                  · exact hb
                  · exact hy.good
                  · exact hz.good

theorem decode1_eod {bs : List Nat} (h : decode1 bs = .error .unexpectedEndOfData) :
    ∀ x ∈ bs, GoodByte x := by
  simp only [decode1] at h
  split at h
  · rename_i e hrb
    cases h
    rw [readByte_eod hrb]
    intro x hx
    cases hx
  · rename_i b tl hrb
    obtain ⟨rfl, hb⟩ := readByte_ok hrb
    split at h
    · simp at h
    · split at h
      · simp at h
      · split at h
        · split at h
          · rename_i e hrc
            cases h
            rw [readCont_eod hrc]
            intro x hx
            rcases List.mem_singleton.mp hx with rfl
            exact hb
          · split at h <;> simp at h
        · split at h
          · rename_i e hr3
            cases h
            have hgood := read3_eod hr3
            intro x hx
            rcases List.mem_cons.mp hx with rfl | hx
            · exact hb
            · exact hgood x hx
          · rename_i v tl₂ hr3
            obtain ⟨y, z, rfl, hy, hz, rfl⟩ := read3_ok hr3
            split at h
            · simp at h
            · split at h
              · split at h
                · rename_i e hrb₂
                  cases h
                  rw [readByte_eod hrb₂]
                  intro x hx
                  simp only [List.mem_cons, List.not_mem_nil, or_false] at hx
                  rcases hx with rfl | rfl | rfl
                  · exact hb
                  · exact hy.good
                  · exact hz.good
                · rename_i b₂ tl₃ hrb₂
                  obtain ⟨rfl, hb₂⟩ := readByte_ok hrb₂
                  split at h
                  · split at h
                    · rename_i e hr3₂
                      cases h
                      have hgood := read3_eod hr3₂
                      intro x hx
                      simp only [List.mem_cons] at hx
                      rcases hx with rfl | rfl | rfl | rfl | hx
                      · exact hb
                      · exact hy.good
                      · exact hz.good
                      · exact hb₂
                      · exact hgood x hx
                    · split at h <;> simp at h
                  · simp at h
              · split at h
                · simp at h
                · simp at h

theorem decode1_kinds {bs : List Nat} {e : ClassFileErr} (h : decode1 bs = .error e) :
    e = .unexpectedEndOfData ∨ e = .invalidModifiedUtf8 := by
  simp only [decode1] at h
  split at h
  · rename_i e' hrb
    cases h
    exact readByte_kinds hrb
  · rename_i b tl hrb
    split at h
    · simp at h
    · split at h
      · cases h
        exact .inr rfl
      · split at h
        · split at h
          · rename_i e' hrc
            cases h
            exact readCont_kinds hrc
          · split at h
            · simp at h
            · cases h
              exact .inr rfl
        · split at h
          · rename_i e' hr3
            cases h
            exact read3_kinds hr3
          · rename_i v tl₂ hr3
            split at h
            · cases h
              exact .inr rfl
            · split at h
              · split at h
                · rename_i e' hrb₂
                  cases h
                  exact readByte_kinds hrb₂
                · rename_i b₂ tl₃ hrb₂
                  split at h
                  · split at h
                    · rename_i e' hr3₂
                      cases h
                      exact read3_kinds hr3₂
                    · split at h
                      · simp at h
                      · cases h
                        exact .inr rfl
                  · cases h
                    exact .inr rfl
              · split at h
                · cases h
                  exact .inr rfl
                · simp at h

theorem decode1_null {bs : List Nat} {rest : List Nat}
    (h : decode1 bs = .ok (0, rest)) : bs = 0xC0 :: 0x80 :: rest := by
  simp only [decode1] at h
  split at h
  · simp at h
  · rename_i b tl hrb
    obtain ⟨rfl, hb⟩ := readByte_ok hrb
    obtain ⟨hb1, hb2⟩ := hb
    split at h
    · simp only [Except.ok.injEq, Prod.mk.injEq] at h
      obtain ⟨rfl, rfl⟩ := h
      exact absurd rfl hb1
    · split at h
      · simp at h
      · split at h
        · split at h
          · simp at h
          · rename_i y tl₁ hrc
            obtain ⟨rfl, hy⟩ := readCont_ok hrc
            obtain ⟨hy1, hy2⟩ := hy
            split at h
            · simp only [Except.ok.injEq, Prod.mk.injEq] at h
              obtain ⟨hv, rfl⟩ := h
              have hb0 : b = 0xC0 := by omega
              have hy0 : y = 0x80 := by omega
              rw [hb0, hy0]
            · simp at h
        · split at h
          · simp at h
          · rename_i v tl₂ hr3
            split at h
            · simp at h
            · split at h
              · split at h
                · simp at h
                · rename_i b₂ tl₃ hrb₂
                  split at h
                  · split at h
                    · simp at h
                    · split at h
                      · simp only [Except.ok.injEq, Prod.mk.injEq] at h
                        omega
                      · simp at h
                  · simp at h
              · split at h
                · simp at h
                · simp only [Except.ok.injEq, Prod.mk.injEq] at h
                  omega

theorem decode1_length {bs : List Nat} {c : Nat} {rest : List Nat}
    (h : decode1 bs = .ok (c, rest)) : rest.length < bs.length := by
  obtain ⟨pre, rfl, hne, -⟩ := decode1_ok_shape h
  have hp : 0 < pre.length := List.length_pos.mpr hne
  simp only [List.length_append]
  omega

/-! ### Round trip: decoding inverts encoding -/

theorem decode1_one {c : Nat} (rest : List Nat) (h1 : 1 ≤ c) (h2 : c ≤ 0x7F) :
    decode1 (c :: rest) = .ok (c, rest) := by
  simp only [decode1, readByte_cons rest (⟨by omega, by omega⟩ : GoodByte c)]
  rw [if_pos (by omega : c ≤ 0x7F)]

theorem decode1_two {c : Nat} (rest : List Nat) (h1 : 0x80 ≤ c) (h2 : c ≤ 0x7FF) :
    decode1 ((0xC0 + c / 64) :: (0x80 + c % 64) :: rest) = .ok (c, rest) := by
  simp only [decode1,
    readByte_cons _ (⟨by omega, by omega⟩ : GoodByte (0xC0 + c / 64)),
    readCont_cons _ (contByte_enc c)]
  rw [if_neg (by omega), if_neg (by omega), if_pos (by omega : 0xC0 + c / 64 ≤ 0xDF),
    if_pos (by omega : (0xC0 + c / 64) % 32 * 64 + (0x80 + c % 64) % 64 = 0 ∨
      0x80 ≤ (0xC0 + c / 64) % 32 * 64 + (0x80 + c % 64) % 64)]
  have hv : (0xC0 + c / 64) % 32 * 64 + (0x80 + c % 64) % 64 = c := by omega
  rw [hv]

theorem decode1_three {c : Nat} (rest : List Nat) (h1 : 0x800 ≤ c) (h2 : c ≤ 0xFFFF)
    (h3 : ¬(0xD800 ≤ c ∧ c ≤ 0xDFFF)) :
    decode1 (enc3 c ++ rest) = .ok (c, rest) := by
  simp only [enc3, List.cons_append, List.nil_append]
  simp only [decode1,
    readByte_cons _ (⟨by omega, by omega⟩ : GoodByte (0xE0 + c / 4096)),
    read3_cons]
  rw [if_neg (by omega), if_neg (by omega), if_neg (by omega)]
  have hv : (0xE0 + c / 4096) % 16 * 4096 + c / 64 % 64 * 64 + c % 64 = c := by omega
  rw [hv, if_neg (by omega), if_neg (by omega), if_neg (by omega)]

theorem decode1_six_core {hi lo : Nat} (rest : List Nat)
    (hhi1 : 0xD800 ≤ hi) (hhi2 : hi ≤ 0xDBFF) (hlo1 : 0xDC00 ≤ lo) (hlo2 : lo ≤ 0xDFFF) :
    decode1 (enc3 hi ++ (enc3 lo ++ rest)) =
      .ok (0x10000 + (hi - 0xD800) * 1024 + (lo - 0xDC00), rest) := by
  simp only [enc3, List.cons_append, List.nil_append]
  simp only [decode1,
    readByte_cons _ (⟨by omega, by omega⟩ : GoodByte (0xE0 + hi / 4096)),
    readByte_cons _ (⟨by omega, by omega⟩ : GoodByte (0xE0 + lo / 4096)),
    read3_cons]
  rw [if_neg (by omega), if_neg (by omega), if_neg (by omega)]
  have hv : (0xE0 + hi / 4096) % 16 * 4096 + hi / 64 % 64 * 64 + hi % 64 = hi := by omega
  rw [hv, if_neg (by omega), if_pos (by omega : 0xD800 ≤ hi ∧ hi ≤ 0xDBFF)]
  rw [if_pos (by omega : 0xE0 ≤ 0xE0 + lo / 4096)]
  have hw : (0xE0 + lo / 4096) % 16 * 4096 + lo / 64 % 64 * 64 + lo % 64 = lo := by omega
  rw [hw, if_pos (by omega : 0xDC00 ≤ lo ∧ lo ≤ 0xDFFF)]

theorem decode1_six {c : Nat} (rest : List Nat) (h1 : 0x10000 ≤ c) (h2 : c ≤ 0x10FFFF) :
    decode1 (enc3 (0xD800 + (c - 0x10000) / 1024) ++
      (enc3 (0xDC00 + (c - 0x10000) % 1024) ++ rest)) = .ok (c, rest) := by
  rw [decode1_six_core rest (by omega) (by omega) (by omega) (by omega)]
  have hc : 0x10000 + (0xD800 + (c - 0x10000) / 1024 - 0xD800) * 1024 +
      (0xDC00 + (c - 0x10000) % 1024 - 0xDC00) = c := by omega
  rw [hc]

theorem decode1_encodeCp {c : Nat} (rest : List Nat) (hc : validCp c = true) :
    decode1 (encodeCp c ++ rest) = .ok (c, rest) := by
  have hv : (1 ≤ c ∧ c ≤ 0x10FFFF) ∧ (c < 0xD800 ∨ 0xDFFF < c) := by
    simpa [validCp, isSurrogate] using hc
  obtain ⟨⟨h1, h2⟩, h3⟩ := hv
  unfold encodeCp
  by_cases ha : 1 ≤ c ∧ c ≤ 0x7F
  · rw [if_pos ha]
    exact decode1_one rest ha.1 ha.2
  · rw [if_neg ha]
    by_cases hb : c ≤ 0x7FF
    · rw [if_pos hb]
      exact decode1_two rest (by omega) hb
    · rw [if_neg hb]
      by_cases hcc : c ≤ 0xFFFF
      · rw [if_pos hcc]
        exact decode1_three rest (by omega) hcc (by omega)
      · rw [if_neg hcc, List.append_assoc]
        exact decode1_six rest (by omega) (by omega)

theorem encodeCp_length_pos (c : Nat) : 0 < (encodeCp c).length := by
  unfold encodeCp
  split
  · simp
  · split
    · simp
    · split <;> simp [enc3]

theorem decodeFuel_encode : ∀ (cps : List Nat) (fuel : Nat),
    (∀ c ∈ cps, validCp c = true) → (encode cps).length ≤ fuel →
    decodeFuel fuel (encode cps) = .ok cps := by
  intro cps
  induction cps with
  | nil =>
    intro fuel h hlen
    cases fuel <;> rfl
  | cons c cps' ih =>
    intro fuel h hlen
    have hc : validCp c = true := h c (List.mem_cons_self c cps')
    have hcps' : ∀ x ∈ cps', validCp x = true := fun x hx => h x (List.mem_cons_of_mem c hx)
    have hpos := encodeCp_length_pos c
    simp only [encode, List.length_append] at hlen
    cases fuel with
    | zero => omega
    | succ f =>
      cases hE : encodeCp c with
      | nil => rw [hE] at hpos; simp at hpos
      | cons b tb =>
        have hd := decode1_encodeCp (encode cps') hc
        rw [hE, List.cons_append] at hd
        rw [hE] at hlen
        simp only [List.length_cons] at hlen
        simp only [encode, hE, List.cons_append, decodeFuel, hd,
          ih f hcps' (by omega)]

/-- C4: for every sequence of code points in U+0001 through U+10FFFF with no
surrogate values, decoding the modified-UTF-8 encoding of the sequence (via
the 1/2/3/6-byte forms) reproduces the original sequence exactly. -/
theorem modifiedUtf8_roundtrip (cps : List Nat) (h : ∀ c ∈ cps, validCp c = true) :
    decode (encode cps) = .ok cps :=
  decodeFuel_encode cps (encode cps).length h (Nat.le_refl _)

/-- Witness for `modifiedUtf8_roundtrip` at a sequence exercising all four
encoded forms (1-, 2-, 3- and 6-byte). -/
theorem modifiedUtf8_roundtrip_witness :
    (∀ c ∈ [0x41, 0x87, 0x2603, 0x10437], validCp c = true) ∧
    decode (encode [0x41, 0x87, 0x2603, 0x10437]) = .ok [0x41, 0x87, 0x2603, 0x10437] :=
  ⟨by decide, modifiedUtf8_roundtrip [0x41, 0x87, 0x2603, 0x10437] (by decide)⟩

/-! ### Forbidden bytes and the null code point -/

theorem decodeFuel_good : ∀ (fuel : Nat) (bs : List Nat), bs.length ≤ fuel →
    decodeFuel fuel bs = .error .invalidModifiedUtf8 ∨ ∀ x ∈ bs, GoodByte x := by
  intro fuel
  induction fuel with
  | zero =>
    intro bs hlen
    cases bs with
    | nil => exact .inr fun x hx => absurd hx (List.not_mem_nil x)
    | cons b tl => simp at hlen
  | succ f ih =>
    intro bs hlen
    cases bs with
    | nil => exact .inr fun x hx => absurd hx (List.not_mem_nil x)
    | cons b tl =>
      cases hd : decode1 (b :: tl) with
      | error e =>
        rcases decode1_kinds hd with rfl | rfl
        · exact .inr (decode1_eod hd)
        · left
          simp only [decodeFuel, hd]
      | ok p =>
        obtain ⟨c, rest⟩ := p
        have hlt := decode1_length hd
        obtain ⟨pre, heq, hne, hpre⟩ := decode1_ok_shape hd
        simp only [List.length_cons] at hlen hlt
        rcases ih rest (by omega) with hbad | hgood
        · left
          simp only [decodeFuel, hd, hbad]
        · right
          intro x hx
          rw [heq] at hx
          rcases List.mem_append.mp hx with hx | hx
          · exact hpre x hx
          · exact hgood x hx

/-- C6: any byte equal to 0 or lying in 0xF0–0xFF makes the whole decode fail
with `InvalidModifiedUtf8`; and the only byte run from which one decoding
step produces the null code point is the 2-byte form `0xC0 0x80` — a literal
zero byte is never mapped to null (it is rejected outright). -/
theorem forbiddenBytes_and_nullForm :
    (∀ bs : List Nat, (∃ b, b ∈ bs ∧ (b = 0 ∨ (0xF0 ≤ b ∧ b ≤ 0xFF))) →
      decode bs = .error .invalidModifiedUtf8) ∧
    (∀ bs rest : List Nat, decode1 bs = .ok (0, rest) → bs = 0xC0 :: 0x80 :: rest) := by
  constructor
  · rintro bs ⟨b, hmem, hbad⟩
    rcases decodeFuel_good bs.length bs (Nat.le_refl _) with h | h
    · exact h
    · obtain ⟨h1, h2⟩ := h b hmem
      omega
  · intro bs rest h
    exact decode1_null h

/-- Witness for `forbiddenBytes_and_nullForm`: a run containing byte 0xF0
fails, a run containing byte 0 fails, and the 2-byte form `0xC0 0x80`
followed by `0x33` is the shape forced by a null decode step. -/
theorem forbiddenBytes_and_nullForm_witness :
    decode [0x41, 0xF0] = .error .invalidModifiedUtf8 ∧
    decode [0x43, 0x00] = .error .invalidModifiedUtf8 ∧
    [0xC0, 0x80, 0x33] = 0xC0 :: 0x80 :: [0x33] :=
  ⟨forbiddenBytes_and_nullForm.1 [0x41, 0xF0] ⟨0xF0, by decide, by decide⟩,
   forbiddenBytes_and_nullForm.1 [0x43, 0x00] ⟨0, by decide, by decide⟩,
   forbiddenBytes_and_nullForm.2 [0xC0, 0x80, 0x33] [0x33] rfl⟩

/-! ## Constant-pool entry decoding (tag dispatch, spec §3/§4.1 and the tag
table of cp_info.rs lines 19–36) -/

/-- Modelled from the spec: the byte cursor's big-endian `read_u16` (spec §6). -/
def readU16 : List Nat → Except ClassFileErr (Nat × List Nat)
  | b1 :: b2 :: tl => .ok (b1 * 256 + b2, tl)
  | _ => .error .unexpectedEndOfData

/-- Modelled from the spec: the byte cursor's big-endian `read_u32` (spec §6). -/
def readU32 : List Nat → Except ClassFileErr (Nat × List Nat)
  | b1 :: b2 :: b3 :: b4 :: tl =>
    .ok (((b1 * 256 + b2) * 256 + b3) * 256 + b4, tl)
  | _ => .error .unexpectedEndOfData

/-- Reinterpret an unsigned 32-bit value as the Rust `i32` it denotes. -/
def toI32 (n : Nat) : Int :=
  if n < 2 ^ 31 then (n : Int) else (n : Int) - 2 ^ 32

/-- Reinterpret an unsigned 64-bit value as the Rust `i64` it denotes; the
Long payload combines its halves as `((long) high_bytes << 32) + low_bytes`
(cp_info.rs lines 202–210). -/
def toI64 (n : Nat) : Int :=
  if n < 2 ^ 63 then (n : Int) else (n : Int) - 2 ^ 64

/-- The reference-kind byte of each `MethodHandleReferenceKind` variant
(`#[repr(u8)]` with `RefGetField = 1`, cp_info.rs lines 608–620). -/
def kindValue : MethodHandleReferenceKind → Nat
  | .refGetField => 1
  | .refGetStatic => 2
  | .refPutField => 3
  | .refPutStatic => 4
  | .refInvokeVirtual => 5
  | .refInvokeStatic => 6
  | .refInvokeSpecial => 7
  | .refNewInvokeSpecial => 8
  | .refInvokeInterface => 9

/-- Modelled from the spec: map a reference-kind byte to the enum variant it
denotes; bytes outside the closed range 1–9 have no variant. -/
def kindOfByte : Nat → Option MethodHandleReferenceKind
  | 1 => some .refGetField
  | 2 => some .refGetStatic
  | 3 => some .refPutField
  | 4 => some .refPutStatic
  | 5 => some .refInvokeVirtual
  | 6 => some .refInvokeStatic
  | 7 => some .refInvokeSpecial
  | 8 => some .refNewInvokeSpecial
  | 9 => some .refInvokeInterface
  | _ => none

/-- The tag byte of each `ConstantInfo` variant, per the table in cp_info.rs
lines 19–36. -/
def ConstantInfo.tag : ConstantInfo → Nat
  | .utf8Info _ => 1
  | .integerInfo _ => 3
  | .floatInfo _ => 4
  | .longInfo _ => 5
  | .doubleInfo _ => 6
  | .classInfo _ => 7
  | .stringInfo _ => 8
  | .fieldRefInfo _ _ => 9
  | .methodRefInfo _ _ => 10
  | .interfaceMethodRefInfo _ _ => 11
  | .nameAndTypeInfo _ _ => 12
  | .methodHandleInfo _ _ => 15
  | .methodTypeInfo _ => 16
  | .invokeDynamicInfo _ _ => 18
  | .moduleInfo _ => 19
  | .packageInfo _ => 20

/-- Modelled from the spec: decode one constant-pool entry.  Reads the tag
byte, dispatches on its value to one of the 15 shapes (reading the payload
byte count of spec §3's table: Utf8 2 + length, Integer/Float 4, Long/Double
8, Class/String/MethodType/Module/Package 2, the four-byte reference shapes
4, MethodHandle 3), and fails with `UnknownTag` on any other tag value
without reading further.  The MethodHandle reference kind must lie in 1–9
(`InvalidMethodHandleKind` otherwise); kind and index are stored raw, no
pool lookup happens here. -/
def readConstant : List Nat → Except ClassFileErr (ConstantInfo × List Nat)
  | [] => .error .unexpectedEndOfData
  | t :: tl =>
    match t with
    | 1 =>
      match readU16 tl with
      | .error e => .error e
      | .ok (len, tl₁) =>
        if len ≤ tl₁.length then
          match decode (tl₁.take len) with
          | .error e => .error e
          | .ok cps => .ok (.utf8Info cps, tl₁.drop len)
        else .error .unexpectedEndOfData
    | 3 =>
      match readU32 tl with
      | .error e => .error e
      | .ok (n, tl₁) => .ok (.integerInfo (toI32 n), tl₁)
    | 4 =>
      match readU32 tl with
      | .error e => .error e
      | .ok (n, tl₁) => .ok (.floatInfo n, tl₁)
    | 5 =>
      match readU32 tl with
      | .error e => .error e
      | .ok (hi, tl₁) =>
        match readU32 tl₁ with
        | .error e => .error e
        | .ok (lo, tl₂) => .ok (.longInfo (toI64 (hi * 2 ^ 32 + lo)), tl₂)
    | 6 =>
      match readU32 tl with
      | .error e => .error e
      | .ok (hi, tl₁) =>
        match readU32 tl₁ with
        | .error e => .error e
        | .ok (lo, tl₂) => .ok (.doubleInfo (hi * 2 ^ 32 + lo), tl₂)
    | 7 =>
      match readU16 tl with
      | .error e => .error e
      | .ok (i, tl₁) => .ok (.classInfo i, tl₁)
    | 8 =>
      match readU16 tl with
      | .error e => .error e
      | .ok (i, tl₁) => .ok (.stringInfo i, tl₁)
    | 9 =>
      match readU16 tl with
      | .error e => .error e
      | .ok (i, tl₁) =>
        match readU16 tl₁ with
        | .error e => .error e
        | .ok (j, tl₂) => .ok (.fieldRefInfo i j, tl₂)
    | 10 =>
      match readU16 tl with
      | .error e => .error e
      | .ok (i, tl₁) =>
        match readU16 tl₁ with
        | .error e => .error e
        | .ok (j, tl₂) => .ok (.methodRefInfo i j, tl₂)
    | 11 =>
      match readU16 tl with
      | .error e => .error e
      | .ok (i, tl₁) =>
        match readU16 tl₁ with
        | .error e => .error e
        | .ok (j, tl₂) => .ok (.interfaceMethodRefInfo i j, tl₂)
    | 12 =>
      match readU16 tl with
      | .error e => .error e
      | .ok (i, tl₁) =>
        match readU16 tl₁ with
        | .error e => .error e
        | .ok (j, tl₂) => .ok (.nameAndTypeInfo i j, tl₂)
    | 15 =>
      match tl with
      | [] => .error .unexpectedEndOfData
      | k :: tl₁ =>
        match kindOfByte k with
        | none => .error .invalidMethodHandleKind
        | some kind =>
          match readU16 tl₁ with
          | .error e => .error e
          | .ok (i, tl₂) => .ok (.methodHandleInfo kind i, tl₂)
    | 16 =>
      match readU16 tl with
      | .error e => .error e
      | .ok (i, tl₁) => .ok (.methodTypeInfo i, tl₁)
    | 18 =>
      match readU16 tl with
      | .error e => .error e
      | .ok (i, tl₁) =>
        match readU16 tl₁ with
        | .error e => .error e
        | .ok (j, tl₂) => .ok (.invokeDynamicInfo i j, tl₂)
    | 19 =>
      match readU16 tl with
      | .error e => .error e
      | .ok (i, tl₁) => .ok (.moduleInfo i, tl₁)
    | 20 =>
      match readU16 tl with
      | .error e => .error e
      | .ok (i, tl₁) => .ok (.packageInfo i, tl₁)
    | _ => .error .unknownTag

theorem readU16_ok {bs : List Nat} {n : Nat} {tl : List Nat}
    (h : readU16 bs = .ok (n, tl)) : ∃ b1 b2, bs = b1 :: b2 :: tl ∧ n = b1 * 256 + b2 := by
  match bs with
  | [] => simp [readU16] at h
  | [b1] => simp [readU16] at h
  | b1 :: b2 :: rest =>
    simp only [readU16, Except.ok.injEq, Prod.mk.injEq] at h
    obtain ⟨rfl, rfl⟩ := h
    exact ⟨b1, b2, rfl, rfl⟩

theorem readU32_ok {bs : List Nat} {n : Nat} {tl : List Nat}
    (h : readU32 bs = .ok (n, tl)) :
    ∃ b1 b2 b3 b4, bs = b1 :: b2 :: b3 :: b4 :: tl ∧
      n = ((b1 * 256 + b2) * 256 + b3) * 256 + b4 := by
  match bs with
  | [] => simp [readU32] at h
  | [b1] => simp [readU32] at h
  | [b1, b2] => simp [readU32] at h
  | [b1, b2, b3] => simp [readU32] at h
  | b1 :: b2 :: b3 :: b4 :: rest =>
    simp only [readU32, Except.ok.injEq, Prod.mk.injEq] at h
    obtain ⟨rfl, rfl⟩ := h
    exact ⟨b1, b2, b3, b4, rfl, rfl⟩

/-- Payload byte count following the tag byte, per spec §3's table (the
Utf8 payload, 2 + length, is stated separately). -/
def tagPayloadSize : Nat → Nat
  | 3 | 4 => 4
  | 5 | 6 => 8
  | 9 | 10 | 11 | 12 | 18 => 4
  | 15 => 3
  | _ => 2

theorem kindOfByte_none : ∀ {k : Nat}, ¬(1 ≤ k ∧ k ≤ 9) → kindOfByte k = none
  | 0, _ => rfl
  | 1, h => absurd ⟨by omega, by omega⟩ h
  | 2, h => absurd ⟨by omega, by omega⟩ h
  | 3, h => absurd ⟨by omega, by omega⟩ h
  | 4, h => absurd ⟨by omega, by omega⟩ h
  | 5, h => absurd ⟨by omega, by omega⟩ h
  | 6, h => absurd ⟨by omega, by omega⟩ h
  | 7, h => absurd ⟨by omega, by omega⟩ h
  | 8, h => absurd ⟨by omega, by omega⟩ h
  | 9, h => absurd ⟨by omega, by omega⟩ h
  | _ + 10, _ => rfl

theorem readConstant_ok_shape {bs : List Nat} {v : ConstantInfo} {rest : List Nat}
    (h : readConstant bs = .ok (v, rest)) :
    ∃ payload, bs = ConstantInfo.tag v :: (payload ++ rest) ∧
      (if ConstantInfo.tag v = 1 then
        ∃ hb lb bytes, payload = hb :: lb :: bytes ∧ bytes.length = hb * 256 + lb
      else payload.length = tagPayloadSize (ConstantInfo.tag v)) := by
  match bs with
  | [] => simp [readConstant] at h
  | t :: tl =>
    simp only [readConstant] at h
    split at h
    · -- tag 1: Utf8
      split at h
      · simp at h
      · rename_i len tl₁ hu
        split at h
        · rename_i hle
          split at h
          · simp at h
          · rename_i cps hdec
            simp only [Except.ok.injEq, Prod.mk.injEq] at h
            obtain ⟨rfl, rfl⟩ := h
            obtain ⟨b1, b2, rfl, rfl⟩ := readU16_ok hu
            refine ⟨b1 :: b2 :: tl₁.take (b1 * 256 + b2), ?_, ?_⟩
            · simp only [ConstantInfo.tag, List.cons_append]
              rw [List.take_append_drop]
            · refine ⟨b1, b2, tl₁.take (b1 * 256 + b2), rfl, ?_⟩
              rw [List.length_take]
              omega
        · simp at h
    · -- tag 3: Integer
      split at h
      · simp at h
      · rename_i n tl₁ hu
        simp only [Except.ok.injEq, Prod.mk.injEq] at h
        obtain ⟨rfl, rfl⟩ := h
        obtain ⟨b1, b2, b3, b4, rfl, rfl⟩ := readU32_ok hu
        exact ⟨[b1, b2, b3, b4], rfl, rfl⟩
    · -- tag 4: Float
      split at h
      · simp at h
      · rename_i n tl₁ hu
        simp only [Except.ok.injEq, Prod.mk.injEq] at h
        obtain ⟨rfl, rfl⟩ := h
        obtain ⟨b1, b2, b3, b4, rfl, rfl⟩ := readU32_ok hu
        exact ⟨[b1, b2, b3, b4], rfl, rfl⟩
    · -- tag 5: Long
      split at h
      · simp at h
      · rename_i hi tl₁ hu1
        split at h
        · simp at h
        · rename_i lo tl₂ hu2
          simp only [Except.ok.injEq, Prod.mk.injEq] at h
          obtain ⟨rfl, rfl⟩ := h
          obtain ⟨b1, b2, b3, b4, rfl, rfl⟩ := readU32_ok hu1
          obtain ⟨b5, b6, b7, b8, rfl, rfl⟩ := readU32_ok hu2
          exact ⟨[b1, b2, b3, b4, b5, b6, b7, b8], rfl, rfl⟩
    · -- tag 6: Double
      split at h
      · simp at h
      · rename_i hi tl₁ hu1
        split at h
        · simp at h
        · rename_i lo tl₂ hu2
          simp only [Except.ok.injEq, Prod.mk.injEq] at h
          obtain ⟨rfl, rfl⟩ := h
          obtain ⟨b1, b2, b3, b4, rfl, rfl⟩ := readU32_ok hu1
          obtain ⟨b5, b6, b7, b8, rfl, rfl⟩ := readU32_ok hu2
          exact ⟨[b1, b2, b3, b4, b5, b6, b7, b8], rfl, rfl⟩
    · -- tag 7: Class
      split at h
      · simp at h
      · rename_i i tl₁ hu
        simp only [Except.ok.injEq, Prod.mk.injEq] at h
        obtain ⟨rfl, rfl⟩ := h
        obtain ⟨b1, b2, rfl, rfl⟩ := readU16_ok hu
        exact ⟨[b1, b2], rfl, rfl⟩
    · -- tag 8: String
      split at h
      · simp at h
      · rename_i i tl₁ hu
        simp only [Except.ok.injEq, Prod.mk.injEq] at h
        obtain ⟨rfl, rfl⟩ := h
        obtain ⟨b1, b2, rfl, rfl⟩ := readU16_ok hu
        exact ⟨[b1, b2], rfl, rfl⟩
    · -- tag 9: FieldRef
      split at h
      · simp at h
      · rename_i i tl₁ hu1
        split at h
        · simp at h
        · rename_i jj tl₂ hu2
          simp only [Except.ok.injEq, Prod.mk.injEq] at h
          obtain ⟨rfl, rfl⟩ := h
          obtain ⟨b1, b2, rfl, rfl⟩ := readU16_ok hu1
          obtain ⟨b3, b4, rfl, rfl⟩ := readU16_ok hu2
          exact ⟨[b1, b2, b3, b4], rfl, rfl⟩
    · -- tag 10: MethodRef
      split at h
      · simp at h
      · rename_i i tl₁ hu1
        split at h
        · simp at h
        · rename_i jj tl₂ hu2
          simp only [Except.ok.injEq, Prod.mk.injEq] at h
          obtain ⟨rfl, rfl⟩ := h
          obtain ⟨b1, b2, rfl, rfl⟩ := readU16_ok hu1
          obtain ⟨b3, b4, rfl, rfl⟩ := readU16_ok hu2
          exact ⟨[b1, b2, b3, b4], rfl, rfl⟩
    · -- tag 11: InterfaceMethodRef
      split at h
      · simp at h
      · rename_i i tl₁ hu1
        split at h
        · simp at h
        · rename_i jj tl₂ hu2
          simp only [Except.ok.injEq, Prod.mk.injEq] at h
          obtain ⟨rfl, rfl⟩ := h
          obtain ⟨b1, b2, rfl, rfl⟩ := readU16_ok hu1
          obtain ⟨b3, b4, rfl, rfl⟩ := readU16_ok hu2
          exact ⟨[b1, b2, b3, b4], rfl, rfl⟩
    · -- tag 12: NameAndType
      split at h
      · simp at h
      · rename_i i tl₁ hu1
        split at h
        · simp at h
        · rename_i jj tl₂ hu2
          simp only [Except.ok.injEq, Prod.mk.injEq] at h
          obtain ⟨rfl, rfl⟩ := h
          obtain ⟨b1, b2, rfl, rfl⟩ := readU16_ok hu1
          obtain ⟨b3, b4, rfl, rfl⟩ := readU16_ok hu2
          exact ⟨[b1, b2, b3, b4], rfl, rfl⟩
    · -- tag 15: MethodHandle
      split at h
      · simp at h
      · rename_i k tl₁
        split at h
        · simp at h
        · rename_i kind hk
          split at h
          · simp at h
          · rename_i i tl₂ hu
            simp only [Except.ok.injEq, Prod.mk.injEq] at h
            obtain ⟨rfl, rfl⟩ := h
            obtain ⟨b1, b2, rfl, rfl⟩ := readU16_ok hu
            exact ⟨[k, b1, b2], rfl, rfl⟩
    · -- tag 16: MethodType
      split at h
      · simp at h
      · rename_i i tl₁ hu
        simp only [Except.ok.injEq, Prod.mk.injEq] at h
        obtain ⟨rfl, rfl⟩ := h
        obtain ⟨b1, b2, rfl, rfl⟩ := readU16_ok hu
        exact ⟨[b1, b2], rfl, rfl⟩
    · -- tag 18: InvokeDynamic
      split at h
      · simp at h
      · rename_i i tl₁ hu1
        split at h
        · simp at h
        · rename_i jj tl₂ hu2
          simp only [Except.ok.injEq, Prod.mk.injEq] at h
          obtain ⟨rfl, rfl⟩ := h
          obtain ⟨b1, b2, rfl, rfl⟩ := readU16_ok hu1
          obtain ⟨b3, b4, rfl, rfl⟩ := readU16_ok hu2
          exact ⟨[b1, b2, b3, b4], rfl, rfl⟩
    · -- tag 19: Module
      split at h
      · simp at h
      · rename_i i tl₁ hu
        simp only [Except.ok.injEq, Prod.mk.injEq] at h
        obtain ⟨rfl, rfl⟩ := h
        obtain ⟨b1, b2, rfl, rfl⟩ := readU16_ok hu
        exact ⟨[b1, b2], rfl, rfl⟩
    · -- tag 20: Package
      split at h
      · simp at h
      · rename_i i tl₁ hu
        simp only [Except.ok.injEq, Prod.mk.injEq] at h
        obtain ⟨rfl, rfl⟩ := h
        obtain ⟨b1, b2, rfl, rfl⟩ := readU16_ok hu
        exact ⟨[b1, b2], rfl, rfl⟩
    · -- unknown tag
      simp at h

/-- C5: the constant-pool entry decoder (i) fails with `UnknownTag`, reading
no further bytes, on every tag byte outside {1,3–12,15,16,18–20}; (ii)
whenever it succeeds, the consumed bytes are the produced variant's tag byte
followed by exactly the payload size of spec §3's table (Utf8: 2 + the
length given by the two length bytes; Integer/Float 4; Long/Double 8;
Class/String/MethodType/Module/Package 2; the four-byte reference shapes 4;
MethodHandle 3); and (iii) for every valid tag, any payload of that size (a
well-formed one for Utf8 and MethodHandle) is accepted, producing the
variant matching the tag and consuming exactly that payload. -/
theorem tagDispatch :
    (∀ (t : Nat) (rest : List Nat),
      t ∉ ([1, 3, 4, 5, 6, 7, 8, 9, 10, 11, 12, 15, 16, 18, 19, 20] : List Nat) →
      readConstant (t :: rest) = .error .unknownTag) ∧
    (∀ (bs rest : List Nat) (v : ConstantInfo), readConstant bs = .ok (v, rest) →
      ∃ payload, bs = ConstantInfo.tag v :: (payload ++ rest) ∧
        (if ConstantInfo.tag v = 1 then
          ∃ hb lb bytes, payload = hb :: lb :: bytes ∧ bytes.length = hb * 256 + lb
        else payload.length = tagPayloadSize (ConstantInfo.tag v))) ∧
    (∀ (t p1 p2 : Nat) (rest : List Nat), t ∈ ([7, 8, 16, 19, 20] : List Nat) →
      ∃ v, readConstant (t :: p1 :: p2 :: rest) = .ok (v, rest) ∧ ConstantInfo.tag v = t) ∧
    (∀ (t p1 p2 p3 p4 : Nat) (rest : List Nat), t ∈ ([3, 4, 9, 10, 11, 12, 18] : List Nat) →
      ∃ v, readConstant (t :: p1 :: p2 :: p3 :: p4 :: rest) = .ok (v, rest) ∧
        ConstantInfo.tag v = t) ∧
    (∀ (t p1 p2 p3 p4 p5 p6 p7 p8 : Nat) (rest : List Nat), t ∈ ([5, 6] : List Nat) →
      ∃ v, readConstant (t :: p1 :: p2 :: p3 :: p4 :: p5 :: p6 :: p7 :: p8 :: rest) =
        .ok (v, rest) ∧ ConstantInfo.tag v = t) ∧
    (∀ (k i1 i2 : Nat) (rest : List Nat) (kind : MethodHandleReferenceKind),
      kindOfByte k = some kind →
      ∃ v, readConstant (15 :: k :: i1 :: i2 :: rest) = .ok (v, rest) ∧
        ConstantInfo.tag v = 15) ∧
    (∀ (hb lb : Nat) (bytes rest cps : List Nat),
      bytes.length = hb * 256 + lb → decode bytes = .ok cps →
      readConstant (1 :: hb :: lb :: (bytes ++ rest)) = .ok (.utf8Info cps, rest)) := by
  refine ⟨?_, fun bs rest v h => readConstant_ok_shape h, ?_, ?_, ?_, ?_, ?_⟩
  · intro t rest ht
    match t, ht with
    | 0, _ => rfl
    | 1, ht => exact absurd (by decide) ht
    | 2, _ => rfl
    | 3, ht => exact absurd (by decide) ht
    | 4, ht => exact absurd (by decide) ht
    | 5, ht => exact absurd (by decide) ht
    | 6, ht => exact absurd (by decide) ht
    | 7, ht => exact absurd (by decide) ht
    | 8, ht => exact absurd (by decide) ht
    | 9, ht => exact absurd (by decide) ht
    | 10, ht => exact absurd (by decide) ht
    | 11, ht => exact absurd (by decide) ht
    | 12, ht => exact absurd (by decide) ht
    | 13, _ => rfl
    | 14, _ => rfl
    | 15, ht => exact absurd (by decide) ht
    | 16, ht => exact absurd (by decide) ht
    | 17, _ => rfl
    | 18, ht => exact absurd (by decide) ht
    | 19, ht => exact absurd (by decide) ht
    | 20, ht => exact absurd (by decide) ht
    | _ + 21, _ => rfl
  · intro t p1 p2 rest ht
    fin_cases ht <;> exact ⟨_, rfl, rfl⟩
  · intro t p1 p2 p3 p4 rest ht
    fin_cases ht <;> exact ⟨_, rfl, rfl⟩
  · intro t p1 p2 p3 p4 p5 p6 p7 p8 rest ht
    fin_cases ht <;> exact ⟨_, rfl, rfl⟩
  · intro k i1 i2 rest kind hk
    refine ⟨.methodHandleInfo kind (i1 * 256 + i2), ?_, rfl⟩
    simp only [readConstant, hk, readU16]
  · intro hb lb bytes rest cps hlen hdec
    have hle : hb * 256 + lb ≤ (bytes ++ rest).length := by
      rw [List.length_append]
      omega
    have htake : (bytes ++ rest).take (hb * 256 + lb) = bytes := by
      rw [← hlen]
      exact List.take_left bytes rest
    have hdrop : (bytes ++ rest).drop (hb * 256 + lb) = rest := by
      rw [← hlen]
      exact List.drop_left bytes rest
    simp only [readConstant, readU16]
    rw [if_pos hle, htake, hdrop, hdec]

/-- Witness for `tagDispatch`: tag byte 2 is rejected as `UnknownTag`; tag 7
with a 2-byte payload yields a Class entry; tag 1 with length 1 and one
ASCII byte yields the Utf8 entry. -/
theorem tagDispatch_witness :
    readConstant [2] = .error .unknownTag ∧
    (∃ v, readConstant [7, 0, 3] = .ok (v, []) ∧ ConstantInfo.tag v = 7) ∧
    readConstant [1, 0, 1, 0x41] = .ok (.utf8Info [0x41], []) :=
  ⟨tagDispatch.1 2 [] (by decide),
   tagDispatch.2.2.1 7 0 3 [] (by decide),
   tagDispatch.2.2.2.2.2.2 0 1 [0x41] [] [0x41] (by decide) rfl⟩

/-- C8: for a MethodHandle constant the decoder stores the raw reference
kind (the enum variant whose value is the kind byte) and the raw reference
index, performing no pool lookup (`readConstant` takes no pool at all), and
rejects every kind byte outside the closed range 1–9 with
`InvalidMethodHandleKind`. -/
theorem methodHandle_kind_range :
    (∀ (k i1 i2 : Nat) (rest : List Nat) (kind : MethodHandleReferenceKind),
      kindOfByte k = some kind →
      readConstant (15 :: k :: i1 :: i2 :: rest) =
        .ok (.methodHandleInfo kind (i1 * 256 + i2), rest)) ∧
    (∀ k : Nat, 1 ≤ k → k ≤ 9 → ∃ kind, kindOfByte k = some kind ∧ kindValue kind = k) ∧
    (∀ (k : Nat) (rest : List Nat), ¬(1 ≤ k ∧ k ≤ 9) →
      readConstant (15 :: k :: rest) = .error .invalidMethodHandleKind) := by
  refine ⟨?_, ?_, ?_⟩
  · intro k i1 i2 rest kind hk
    simp only [readConstant, hk, readU16]
  · intro k h1 h2
    match k, h1, h2 with
    | 1, _, _ => exact ⟨.refGetField, rfl, rfl⟩
    | 2, _, _ => exact ⟨.refGetStatic, rfl, rfl⟩
    | 3, _, _ => exact ⟨.refPutField, rfl, rfl⟩
    | 4, _, _ => exact ⟨.refPutStatic, rfl, rfl⟩
    | 5, _, _ => exact ⟨.refInvokeVirtual, rfl, rfl⟩
    | 6, _, _ => exact ⟨.refInvokeStatic, rfl, rfl⟩
    | 7, _, _ => exact ⟨.refInvokeSpecial, rfl, rfl⟩
    | 8, _, _ => exact ⟨.refNewInvokeSpecial, rfl, rfl⟩
    | 9, _, _ => exact ⟨.refInvokeInterface, rfl, rfl⟩
    | n + 10, _, h2 => exact absurd h2 (by omega)
  · intro k rest hk
    simp only [readConstant, kindOfByte_none hk]

/-- Witness for `methodHandle_kind_range`: kind byte 5 decodes to
`RefInvokeVirtual` with the raw index stored; kind bytes 10 and 0 are
rejected. -/
theorem methodHandle_kind_range_witness :
    readConstant [15, 5, 0, 7] = .ok (.methodHandleInfo .refInvokeVirtual 7, []) ∧
    readConstant [15, 10, 0, 7] = .error .invalidMethodHandleKind ∧
    readConstant [15, 0, 0, 7] = .error .invalidMethodHandleKind :=
  ⟨methodHandle_kind_range.1 5 0 7 [] .refInvokeVirtual rfl,
   methodHandle_kind_range.2.2 10 [0, 7] (by decide),
   methodHandle_kind_range.2.2 0 [0, 7] (by decide)⟩

/-! ## Float and Double bit reinterpretation (cp_info.rs lines 171–193,
227–255) -/

/-- The decoded value of a Float/Double constant as the reconstruction
algorithm in the source's doc comments describes it: one of the two
infinities, NaN, or the finite value determined by the sign `s`, biased
exponent `e` and mantissa `m` (the float value denotes `s * m * 2^(e-150)`,
the double value `s * m * 2^(e-1075)`). -/
inductive DecodedFloat
  | posInfinity
  | negInfinity
  | nan
  | finite (s : Int) (e : Nat) (m : Nat)
  deriving DecidableEq

/-- The Float reconstruction algorithm from the doc comment of `FloatInfo`
(cp_info.rs lines 171–193), with the bit operations exactly as written
there. -/
def floatValue (bits : Nat) : DecodedFloat :=
  if bits = 0x7f800000 then .posInfinity
  else if bits = 0xff800000 then .negInfinity
  else if (0x7f800001 ≤ bits ∧ bits ≤ 0x7fffffff) ∨
      (0xff800001 ≤ bits ∧ bits ≤ 0xffffffff) then .nan
  else
    .finite (if bits >>> 31 = 0 then 1 else -1) ((bits >>> 23) &&& 0xff)
      (if (bits >>> 23) &&& 0xff = 0 then (bits &&& 0x7fffff) <<< 1
       else (bits &&& 0x7fffff) ||| 0x800000)

/-- The Double reconstruction algorithm from the doc comment of `DoubleInfo`
(cp_info.rs lines 227–255). -/
def doubleValue (bits : Nat) : DecodedFloat :=
  if bits = 0x7ff0000000000000 then .posInfinity
  else if bits = 0xfff0000000000000 then .negInfinity
  else if (0x7ff0000000000001 ≤ bits ∧ bits ≤ 0x7fffffffffffffff) ∨
      (0xfff0000000000001 ≤ bits ∧ bits ≤ 0xffffffffffffffff) then .nan
  else
    .finite (if bits >>> 63 = 0 then 1 else -1) ((bits >>> 52) &&& 0x7ff)
      (if (bits >>> 52) &&& 0x7ff = 0 then (bits &&& 0xfffffffffffff) <<< 1
       else (bits &&& 0xfffffffffffff) ||| 0x10000000000000)

/-- Setting a power-of-two bit above a value is addition. -/
theorem lor_two_pow_eq_add {x : Nat} (n : Nat) (h : x < 2 ^ n) :
    x ||| 2 ^ n = x + 2 ^ n := by
  apply Nat.eq_of_testBit_eq
  intro i
  rcases Nat.lt_trichotomy i n with hi | rfl | hi
  · rw [Nat.testBit_or, Nat.testBit_two_pow_of_ne (by omega), Bool.or_false,
      Nat.add_comm, Nat.testBit_two_pow_add_gt hi]
  · rw [Nat.testBit_or, Nat.testBit_two_pow_self, Nat.testBit_lt_two_pow h,
      Nat.add_comm, Nat.testBit_two_pow_add_eq, Nat.testBit_lt_two_pow h]
    rfl
  · have h2 : 2 ^ (n + 1) ≤ 2 ^ i := Nat.pow_le_pow_right (by omega) (by omega)
    have h3 : 2 ^ (n + 1) = 2 ^ n * 2 := Nat.pow_succ 2 n
    rw [Nat.testBit_or, Nat.testBit_two_pow_of_ne (by omega),
      Nat.testBit_lt_two_pow (by omega : x < 2 ^ i),
      Nat.testBit_lt_two_pow (by omega : x + 2 ^ n < 2 ^ i)]
    rfl

/-- C7: Float decoding maps 0x7f800000 to positive infinity, 0xff800000 to
negative infinity, every pattern in the two NaN ranges to NaN, and every
other 32-bit pattern to the finite value given by the standard
sign/exponent/mantissa extraction; Double decoding does the same for the
corresponding 64-bit patterns. -/
theorem floatDoubleBits :
    floatValue 0x7f800000 = .posInfinity ∧
    floatValue 0xff800000 = .negInfinity ∧
    (∀ bits : Nat, (0x7f800001 ≤ bits ∧ bits ≤ 0x7fffffff) ∨
      (0xff800001 ≤ bits ∧ bits ≤ 0xffffffff) → floatValue bits = .nan) ∧
    (∀ bits : Nat, bits < 2 ^ 32 → bits ≠ 0x7f800000 → bits ≠ 0xff800000 →
      ¬((0x7f800001 ≤ bits ∧ bits ≤ 0x7fffffff) ∨
        (0xff800001 ≤ bits ∧ bits ≤ 0xffffffff)) →
      floatValue bits = .finite (if bits / 2 ^ 31 = 0 then 1 else -1)
        (bits / 2 ^ 23 % 2 ^ 8)
        (if bits / 2 ^ 23 % 2 ^ 8 = 0 then bits % 2 ^ 23 * 2
         else bits % 2 ^ 23 + 2 ^ 23)) ∧
    doubleValue 0x7ff0000000000000 = .posInfinity ∧
    doubleValue 0xfff0000000000000 = .negInfinity ∧
    (∀ bits : Nat, (0x7ff0000000000001 ≤ bits ∧ bits ≤ 0x7fffffffffffffff) ∨
      (0xfff0000000000001 ≤ bits ∧ bits ≤ 0xffffffffffffffff) →
      doubleValue bits = .nan) ∧
    (∀ bits : Nat, bits < 2 ^ 64 → bits ≠ 0x7ff0000000000000 →
      bits ≠ 0xfff0000000000000 →
      ¬((0x7ff0000000000001 ≤ bits ∧ bits ≤ 0x7fffffffffffffff) ∨
        (0xfff0000000000001 ≤ bits ∧ bits ≤ 0xffffffffffffffff)) →
      doubleValue bits = .finite (if bits / 2 ^ 63 = 0 then 1 else -1)
        (bits / 2 ^ 52 % 2 ^ 11)
        (if bits / 2 ^ 52 % 2 ^ 11 = 0 then bits % 2 ^ 52 * 2
         else bits % 2 ^ 52 + 2 ^ 52)) := by
  refine ⟨rfl, rfl, ?_, ?_, rfl, rfl, ?_, ?_⟩
  · intro bits hr
    unfold floatValue
    rw [if_neg (by omega), if_neg (by omega), if_pos hr]
  · intro bits hlt h1 h2 h3
    unfold floatValue
    rw [if_neg h1, if_neg h2, if_neg h3]
    have hs : bits >>> 31 = bits / 2 ^ 31 := Nat.shiftRight_eq_div_pow _ _
    have he : (bits >>> 23) &&& 0xff = bits / 2 ^ 23 % 2 ^ 8 := by
      rw [Nat.shiftRight_eq_div_pow]
      simp only [show (0xff : Nat) = 2 ^ 8 - 1 from rfl]
      exact Nat.and_pow_two_sub_one_eq_mod _ _
    have hm : bits &&& 0x7fffff = bits % 2 ^ 23 := by
      simp only [show (0x7fffff : Nat) = 2 ^ 23 - 1 from rfl]
      exact Nat.and_pow_two_sub_one_eq_mod _ _
    rw [hs, he, hm, Nat.shiftLeft_eq, Nat.pow_one]
    simp only [show (0x800000 : Nat) = 2 ^ 23 from rfl]
    rw [lor_two_pow_eq_add 23 (Nat.mod_lt _ (by norm_num))]
  · intro bits hr
    unfold doubleValue
    rw [if_neg (by omega), if_neg (by omega), if_pos hr]
  · intro bits hlt h1 h2 h3
    unfold doubleValue
    rw [if_neg h1, if_neg h2, if_neg h3]
    have hs : bits >>> 63 = bits / 2 ^ 63 := Nat.shiftRight_eq_div_pow _ _
    have he : (bits >>> 52) &&& 0x7ff = bits / 2 ^ 52 % 2 ^ 11 := by
      rw [Nat.shiftRight_eq_div_pow]
      simp only [show (0x7ff : Nat) = 2 ^ 11 - 1 from rfl]
      exact Nat.and_pow_two_sub_one_eq_mod _ _
    have hm : bits &&& 0xfffffffffffff = bits % 2 ^ 52 := by
      simp only [show (0xfffffffffffff : Nat) = 2 ^ 52 - 1 from rfl]
      exact Nat.and_pow_two_sub_one_eq_mod _ _
    rw [hs, he, hm, Nat.shiftLeft_eq, Nat.pow_one]
    simp only [show (0x10000000000000 : Nat) = 2 ^ 52 from rfl]
    rw [lor_two_pow_eq_add 52 (Nat.mod_lt _ (by norm_num))]

/-- Witness for `floatDoubleBits`: a quiet-NaN pattern decodes to NaN for
both widths, and the patterns of 1.0f and 1.0 decode via the standard
formula (sign 1, biased exponent 127 resp. 1023, mantissa with the hidden
bit set). -/
theorem floatDoubleBits_witness :
    floatValue 0x7fc00000 = .nan ∧
    doubleValue 0x7ff8000000000000 = .nan ∧
    floatValue 0x3f800000 = .finite 1 127 0x800000 ∧
    doubleValue 0x3ff0000000000000 = .finite 1 1023 0x10000000000000 :=
  ⟨floatDoubleBits.2.2.1 0x7fc00000 (by decide),
   floatDoubleBits.2.2.2.2.2.2.1 0x7ff8000000000000 (by decide),
   floatDoubleBits.2.2.2.1 0x3f800000 (by decide) (by decide) (by decide) (by decide),
   floatDoubleBits.2.2.2.2.2.2.2 0x3ff0000000000000 (by decide) (by decide) (by decide)
     (by decide)⟩

/-! ## Derived equality of constant-pool entries (cp_info.rs lines 38, 608) -/

/-- Is this 32-bit pattern a NaN? -/
def isNan32 (bits : Nat) : Bool := floatValue bits == .nan

/-- Is this 64-bit pattern a NaN? -/
def isNan64 (bits : Nat) : Bool := doubleValue bits == .nan

/-- Rust `==` on two `f32` bit patterns (IEEE-754 equality): a NaN compares
unequal to everything, +0.0 equals -0.0 (pattern `0x80000000`), and all
other values compare equal exactly when their bits agree. -/
def f32BitsEq (a b : Nat) : Bool :=
  if isNan32 a || isNan32 b then false
  else (if a = 0x80000000 then 0 else a) = (if b = 0x80000000 then 0 else b)

/-- Rust `==` on two `f64` bit patterns (IEEE-754 equality). -/
def f64BitsEq (a b : Nat) : Bool :=
  if isNan64 a || isNan64 b then false
  else (if a = 0x8000000000000000 then 0 else a) =
    (if b = 0x8000000000000000 then 0 else b)

/-- The derived `PartialEq` of `ConstantInfo` (`#[derive(PartialEq)]`,
cp_info.rs line 38): variant-wise field comparison, where the `f32`/`f64`
payloads of `FloatInfo`/`DoubleInfo` compare with IEEE-754 `==` and every
other field compares structurally. -/
def constantEq : ConstantInfo → ConstantInfo → Bool
  | .floatInfo a, .floatInfo b => f32BitsEq a b
  | .doubleInfo a, .doubleInfo b => f64BitsEq a b
  | a, b => a == b

/-- C10: the derived `PartialEq` of `ConstantInfo` is not reflexive: a
`FloatInfo` or `DoubleInfo` entry whose bits form a NaN pattern is unequal
to itself, because the float payload comparison follows IEEE-754 NaN
semantics (a non-float entry, by contrast, equals itself). -/
theorem constantEq_not_reflexive :
    constantEq (.floatInfo 0x7fc00000) (.floatInfo 0x7fc00000) = false ∧
    constantEq (.doubleInfo 0x7ff8000000000000) (.doubleInfo 0x7ff8000000000000) = false ∧
    constantEq (.integerInfo 7) (.integerInfo 7) = true := by
  refine ⟨?_, ?_, ?_⟩ <;> decide

/-! ## Class file structural parsing (mod.rs lines 30–163, spec §4.2) -/

/-- Placeholder `FieldInfo` of mod.rs (the field decoder is an external
collaborator whose payload format this core does not own). -/
inductive FieldInfo | mk

/-- Placeholder `MethodInfo` of mod.rs. -/
inductive MethodInfo | mk

/-- Placeholder `AttributeInfo` of mod.rs. -/
inductive AttributeInfo | mk

/-- The `ClassFile` struct of mod.rs lines 30–163: magic, the two version
numbers, the constant pool table, the access-flags bitmask, the this/super
class indices, the ordered interface indices, and the three externally
decoded sequences. -/
structure ClassFile where
  magic : Nat
  minor_version : Nat
  major_version : Nat
  cp_info : List PoolSlot
  access_flags : Nat
  this_class : Nat
  super_class : Nat
  interfaces : List Nat
  fields : List FieldInfo
  methods : List MethodInfo
  attributes : List AttributeInfo

/-- The interface of the external field/method/attribute decoders (spec §4.2
step 8): read-only pool access plus the remaining bytes, producing the
decoded sequence and the rest of the buffer. -/
def SectionDecoder (α : Type) : Type :=
  List PoolSlot → List Nat → Except ClassFileErr (List α × List Nat)

/-- Modelled from the spec: resolve an index and require the Class variant
(spec §4.2 step 5); failures are `InvalidConstantPoolIndex` from `resolve`
or `WrongConstantKind` on another variant. -/
def resolveClass (pool : List PoolSlot) (i : Nat) : Except ClassFileErr Unit :=
  match resolve pool i with
  | .error e => .error e
  | .ok (.classInfo _) => .ok ()
  | .ok _ => .error .wrongConstantKind

/-- Modelled from the spec: decode `n` remaining logical pool slots (spec
§4.2 step 3 runs this with `n = count − 1`): each 8-byte constant fills two
slots, the second unusable; every other entry fills one. -/
def readPoolEntries : Nat → List Nat → Except ClassFileErr (List PoolSlot × List Nat)
  | 0, bs => .ok ([], bs)
  | n + 1, bs =>
    match readConstant bs with
    | .error e => .error e
    | .ok (c, rest) =>
      if c.isWide then
        match readPoolEntries (n - 1) rest with
        | .error e => .error e
        | .ok (slots, rest₂) => .ok (.entry c :: .unusable :: slots, rest₂)
      else
        match readPoolEntries n rest with
        | .error e => .error e
        | .ok (slots, rest₂) => .ok (.entry c :: slots, rest₂)
  termination_by n _ => n

/-- Modelled from the spec: read the interfaces sequence (spec §4.2 step 7),
each index resolved to a Class entry, declaration order preserved. -/
def readInterfaces (pool : List PoolSlot) : Nat → List Nat →
    Except ClassFileErr (List Nat × List Nat)
  | 0, bs => .ok ([], bs)
  | n + 1, bs =>
    match readU16 bs with
    | .error e => .error e
    | .ok (i, bs₁) =>
      match resolveClass pool i with
      | .error e => .error e
      | .ok _ =>
        match readInterfaces pool n bs₁ with
        | .error e => .error e
        | .ok (is, bs₂) => .ok (i :: is, bs₂)

/-- Modelled from the spec: the Class File Structural Parser (spec §4.2),
parameterized by the three external section decoders.  Magic, versions,
constant pool, access flags (validated), this/super class, interfaces, then
the delegated sections; every failure aborts the whole parse with that
error, and the `ClassFile` value is built only at the single success
point. -/
def classFileParse (fd : SectionDecoder FieldInfo) (md : SectionDecoder MethodInfo)
    (ad : SectionDecoder AttributeInfo) (bs : List Nat) : Except ClassFileErr ClassFile :=
  match readU32 bs with
  | .error e => .error e
  | .ok (magic, bs₁) =>
    if magic = 0xCAFEBABE then
      match readU16 bs₁ with
      | .error e => .error e
      | .ok (minor, bs₂) =>
        match readU16 bs₂ with
        | .error e => .error e
        | .ok (major, bs₃) =>
          match readU16 bs₃ with
          | .error e => .error e
          | .ok (cpCount, bs₄) =>
            match readPoolEntries (cpCount - 1) bs₄ with
            | .error e => .error e
            | .ok (pool, bs₅) =>
              match readU16 bs₅ with
              | .error e => .error e
              | .ok (flags, bs₆) =>
                if validateClassAccessFlags flags then
                  match readU16 bs₆ with
                  | .error e => .error e
                  | .ok (thisIdx, bs₇) =>
                    match resolveClass pool thisIdx with
                    | .error e => .error e
                    | .ok _ =>
                      match readU16 bs₇ with
                      | .error e => .error e
                      | .ok (superIdx, bs₈) =>
                        match (if superIdx = 0 then (.ok () : Except ClassFileErr Unit)
                            else resolveClass pool superIdx) with
                        | .error e => .error e
                        | .ok _ =>
                          match readU16 bs₈ with
                          | .error e => .error e
                          | .ok (ifCount, bs₉) =>
                            match readInterfaces pool ifCount bs₉ with
                            | .error e => .error e
                            | .ok (ifs, bs₁₀) =>
                              match fd pool bs₁₀ with
                              | .error e => .error e
                              | .ok (fs, bs₁₁) =>
                                match md pool bs₁₁ with
                                | .error e => .error e
                                | .ok (ms, bs₁₂) =>
                                  match ad pool bs₁₂ with
                                  | .error e => .error e
                                  | .ok (ats, _) =>
                                    .ok ⟨magic, minor, major, pool, flags,
                                      thisIdx, superIdx, ifs, fs, ms, ats⟩
                else .error .invalidAccessFlags
    else .error .badMagic

/-- C9: the parse is all-or-nothing.  For every buffer it returns either a
complete `ClassFile` or an error — never a partial value; a returned value
passed the magic check and the access-flags validation; and a wrong magic
aborts immediately with `BadMagic` (the first error encountered), whatever
the remaining bytes hold.  This holds for every choice of the three external
section decoders. -/
theorem parse_all_or_nothing (fd : SectionDecoder FieldInfo)
    (md : SectionDecoder MethodInfo) (ad : SectionDecoder AttributeInfo) :
    (∀ bs : List Nat, (∃ cf, classFileParse fd md ad bs = .ok cf) ∨
      (∃ e, classFileParse fd md ad bs = .error e)) ∧
    (∀ (bs : List Nat) (cf : ClassFile), classFileParse fd md ad bs = .ok cf →
      cf.magic = 0xCAFEBABE ∧ validateClassAccessFlags cf.access_flags = true) ∧
    (∀ (bs : List Nat) (m : Nat) (bs₁ : List Nat), readU32 bs = .ok (m, bs₁) →
      m ≠ 0xCAFEBABE → classFileParse fd md ad bs = .error .badMagic) := by
  refine ⟨?_, ?_, ?_⟩
  · intro bs
    cases h : classFileParse fd md ad bs with
    | ok cf => exact .inl ⟨cf, rfl⟩
    | error e => exact .inr ⟨e, rfl⟩
  · intro bs cf h
    simp only [classFileParse] at h
    split at h
    · simp at h
    · rename_i magic bs₁ hu
      split at h
      · rename_i hm
        split at h
        · simp at h
        · split at h
          · simp at h
          · split at h
            · simp at h
            · split at h
              · simp at h
              · split at h
                · simp at h
                · rename_i flags bs₆ hfl
                  split at h
                  · rename_i hv
                    split at h
                    · simp at h
                    · split at h
                      · simp at h
                      · split at h
                        · simp at h
                        · split at h
                          · simp at h
                          · split at h
                            · simp at h
                            · split at h
                              · simp at h
                              · split at h
                                · simp at h
                                · split at h
                                  · simp at h
                                  · split at h
                                    · simp at h
                                    · simp only [Except.ok.injEq] at h
                                      obtain rfl := h
                                      exact ⟨hm, hv⟩
                  · simp at h
      · simp at h
  · intro bs m bs₁ hu hm
    simp only [classFileParse, hu]
    rw [if_neg hm]

/-- Witness for `parse_all_or_nothing` with trivial external decoders: a
zero-magic buffer fails with `BadMagic`, and the dichotomy holds on it. -/
theorem parse_all_or_nothing_witness :
    classFileParse (fun _ bs => .ok ([], bs)) (fun _ bs => .ok ([], bs))
      (fun _ bs => .ok ([], bs)) [0, 0, 0, 0] = .error .badMagic ∧
    ((∃ cf, classFileParse (fun _ bs => .ok ([], bs)) (fun _ bs => .ok ([], bs))
        (fun _ bs => .ok ([], bs)) [0, 0, 0, 0] = .ok cf) ∨
      (∃ e, classFileParse (fun _ bs => .ok ([], bs)) (fun _ bs => .ok ([], bs))
        (fun _ bs => .ok ([], bs)) [0, 0, 0, 0] = .error e)) :=
  ⟨(parse_all_or_nothing _ _ _).2.2 [0, 0, 0, 0] 0 [] rfl (by decide),
   (parse_all_or_nothing _ _ _).1 [0, 0, 0, 0]⟩

end JustVM
